import Mathlib

/-!
Shallow embedding of the concurrent resource-management core of the `dash`
operations dashboard: the SSH connection pool (`server/ssh_service.py`),
the WebSocket event hub (`server/websocket_service.py`), and the metrics
cache / history store (`server/metrics_service.py`).

Conventions used throughout:
* Python `dict`s become total functions into `Option` (or into `List` for
  the `defaultdict(list)` history map); an absent key is `none` / `[]`.
* Python `set`s become `Finset String`.
* `datetime` timestamps become `Nat` microseconds since the epoch; the
  `timedelta.seconds` attribute that the source reads (NOT
  `total_seconds()`) is modelled exactly by `pyTdSeconds`.
* Each operation that the source runs under its coarse lock becomes one
  atomic state-transformation function.
-/

namespace Dash

/-- Pointwise update of a function-modelled dictionary: `d[k] = v`. -/
def update {α β : Type} [DecidableEq α] (f : α → β) (k : α) (v : β) : α → β :=
  fun x => if x = k then v else f x

/-- Python `list.pop()`: remove and return the last element, if any. -/
def popLast {α : Type} (l : List α) : Option (α × List α) :=
  match l.reverse with
  | [] => none
  | x :: rest => some (x, rest.reverse)

/-- The `seconds` attribute of a Python `timedelta` between two instants
given in microseconds: component-wise, `timedelta.seconds` is
`(total_microseconds // 10^6) % 86400` with floor division and
floor modulus, which `Int.ediv` / `Int.emod` model exactly.  This is the
expression the source uses in `MetricsService._get_from_cache`,
`MetricsService._cleanup_cache` and `WebSocketService._check_client_health`
(`(now - then).seconds`), and it differs from the genuine elapsed time
whenever the difference is a day or longer. -/
def pyTdSeconds (now earlier : Nat) : Int :=
  (((now : Int) - (earlier : Int)).ediv 1000000).emod 86400

/-! ## SSH connection pool (`SSHConnectionPool`, `server/ssh_service.py`)

Connection handles are opaque; we model them as `Nat`.  The pool state is
the `connections` dict: target name to list of `(client, last_used)`
pairs, appended at the end and popped from the end. -/

/-- An SSH client handle (`paramiko.SSHClient` object identity). -/
abbrev Conn := Nat

/-- `SSHConnectionPool.connections`: target name → idle `(client, last_used)`
list, in insertion order.  An absent dict key is the empty list (the code
never distinguishes a missing key from an empty list). -/
abbrev Pool := String → List (Conn × Nat)

/-- The pool with no idle connections. -/
def emptyPool : Pool := fun _ => []

/-- Observable outcome of one complete `get_connection` context-manager
run (`SSHConnectionPool.get_connection`), for one caller:
* `leased` — the connection yielded to the caller's `with` body;
* `poolDuring` — the `connections` dict while the lease is out
  (after the acquire block, before the return block);
* `poolAfter` — the dict after the context manager finishes;
* `closed` — the handles on which `.close()` was invoked during the run;
* `returned` — whether the leased handle was appended back to the idle list;
* `createdNew` — whether `connect_func` was invoked;
* `probedDead` — the popped idle handle whose liveness probe
  (`get_transport().send_ignore()`) raised, if any;
* `raised` — whether the caller's body raised (the exception propagates). -/
structure RunResult where
  leased : Conn
  poolDuring : Pool
  poolAfter : Pool
  closed : List Conn
  returned : Bool
  createdNew : Bool
  probedDead : Option Conn
  raised : Bool

/-- The tail of `get_connection` after the acquire block chose `conn`:
`yield conn`, then — only on normal return — the return-to-pool block
(append iff the idle list for `name` is shorter than `max_connections`,
and then `connection = None`), and in all cases the `finally` block,
which closes `connection` iff it is still non-`None`.  If the body
raises, the return block is skipped and `finally` closes the handle. -/
def finish_lease (maxConn : Nat) (poolD : Pool) (name : String) (conn : Conn)
    (createdNew : Bool) (probedDead : Option Conn) (now : Nat)
    (bodyRaises : Bool) : RunResult :=
  if bodyRaises then
    ⟨conn, poolD, poolD, [conn], false, createdNew, probedDead, true⟩
  else if (poolD name).length < maxConn then
    ⟨conn, poolD, update poolD name (poolD name ++ [(conn, now)]), [],
      true, createdNew, probedDead, false⟩
  else
    ⟨conn, poolD, poolD, [conn], false, createdNew, probedDead, false⟩

/-- One complete run of `SSHConnectionPool.get_connection(server_name,
connect_func)` together with the caller's `with` body.  The environment is
abstracted: `alive c` is whether the liveness probe on `c` succeeds,
`fresh` is the handle `connect_func()` would create, `now` the time
recorded on return, and `bodyRaises` whether the caller's body raises.
Acquire block: pop the last idle entry for `name` if any and probe it; on
probe failure the reference is dropped (`connection = None` — note the
source never closes the dead handle) and a fresh session is created. -/
def get_connection_run (maxConn : Nat) (pool : Pool) (name : String)
    (alive : Conn → Bool) (fresh : Conn) (now : Nat) (bodyRaises : Bool) :
    RunResult :=
  match popLast (pool name) with
  | some ((c, _), rest) =>
    if alive c then
      finish_lease maxConn (update pool name rest) name c false none now bodyRaises
    else
      finish_lease maxConn (update pool name rest) name fresh true (some c) now bodyRaises
  | none =>
    finish_lease maxConn pool name fresh true none now bodyRaises

/-- `SSHConnectionPool.cleanup_idle_connections(max_idle_time)`: for every
target keep exactly the entries with `current_time - last_used <=
max_idle_time` (the others are closed); a target whose list becomes empty
is deleted from the dict, which in this encoding is the same as mapping
it to `[]`. -/
def cleanup_idle_connections (pool : Pool) (now maxIdle : Nat) : Pool :=
  fun n => (pool n).filter (fun ct => decide (now - ct.2 ≤ maxIdle))

/-- A pool-facing operation: one full scoped lease (acquire + caller body +
release, as in `get_connection`) or one run of the idle reaper. -/
inductive PoolOp where
  | lease (name : String) (alive : Conn → Bool) (fresh : Conn) (now : Nat)
      (bodyRaises : Bool)
  | reap (now maxIdle : Nat)

/-- Effect of one `PoolOp` on the `connections` dict. -/
def applyPoolOp (maxConn : Nat) (pool : Pool) : PoolOp → Pool
  | .lease name alive fresh now bodyRaises =>
    (get_connection_run maxConn pool name alive fresh now bodyRaises).poolAfter
  | .reap now maxIdle => cleanup_idle_connections pool now maxIdle

/-- Pool bound: no target's idle list exceeds `maxConn` entries. -/
def BoundedPool (maxConn : Nat) (pool : Pool) : Prop :=
  ∀ n, (pool n).length ≤ maxConn

/-! ## WebSocket event hub (`WebSocketService`, `server/websocket_service.py`) -/

/-- The JSON message built by `broadcast_event`:
`{'type': event_type, 'data': data, 'timestamp': utcnow().isoformat()}`.
`data` is opaque (a JSON value) and modelled as a `String`; the timestamp
is `Nat` microseconds. -/
structure Msg where
  type : String
  data : String
  timestamp : Nat
deriving DecidableEq

/-- A `WebSocketClient` record.  The transport handle `ws` is external and
carries no state relevant to the claims, so it is omitted; the queue holds
`Option Msg`, where `none` is the `None` shutdown sentinel. -/
structure Client where
  subscriptions : Finset String
  lastPing : Nat
  queue : List (Option Msg)
deriving DecidableEq

/-- The hub's shared state: `clients` (registry dict, id → client) and
`event_handlers` (event type → set of subscribed client ids; `none` means
the key is absent from the dict, which `subscribe` distinguishes from an
empty set). -/
structure HubState where
  clients : String → Option Client
  handlers : String → Option (Finset String)

/-- The hub with no clients and no handler entries. -/
def emptyHub : HubState := { clients := fun _ => none, handlers := fun _ => none }

/-- The subscription set of client `id` (empty when unregistered). -/
def subsOf (s : HubState) (id : String) : Finset String :=
  match s.clients id with
  | some cl => cl.subscriptions
  | none => ∅

/-- The subscriber set recorded in `event_handlers` for event `E`
(empty when the key is absent). -/
def handlersSet (s : HubState) (E : String) : Finset String :=
  (s.handlers E).getD ∅

/-- `WebSocketService.register_client`: store a fresh client record with
empty subscriptions, `last_ping = utcnow()` and an empty queue.  The id
is `str(id(ws))`, i.e. determined by the transport object; it is a
parameter here. -/
def register_client (s : HubState) (id : String) (now : Nat) : HubState :=
  { s with clients := (update s.clients id
      (some { subscriptions := ∅, lastPing := now, queue := [] })) }

/-- `WebSocketService.subscribe`: no-op if `id` is not registered;
otherwise add `E` to the client's own set and add `id` to
`event_handlers[E]`, creating that key if absent.  Both updates happen
under `_client_lock` and `_handler_lock` held together. -/
def subscribe (s : HubState) (id E : String) : HubState :=
  match s.clients id with
  | none => s
  | some cl =>
    { clients := update s.clients id
        (some { cl with subscriptions := insert E cl.subscriptions }),
      handlers := update s.handlers E (some (insert id (handlersSet s E))) }

/-- `WebSocketService.unsubscribe`: no-op if `id` is not registered;
otherwise discard `E` from the client's set and, if the
`event_handlers[E]` key exists, discard `id` from it (the key itself is
never deleted). -/
def unsubscribe (s : HubState) (id E : String) : HubState :=
  match s.clients id with
  | none => s
  | some cl =>
    { clients := update s.clients id
        (some { cl with subscriptions := cl.subscriptions.erase E }),
      handlers :=
        match s.handlers E with
        | none => s.handlers
        | some hs => update s.handlers E (some (hs.erase id)) }

/-- `WebSocketService._remove_client`: if registered, discard `id` from
`event_handlers[event_type]` for every `event_type` in the client's own
subscription set (only where that key exists), then delete the registry
entry. -/
def remove_client (s : HubState) (id : String) : HubState :=
  match s.clients id with
  | none => s
  | some cl =>
    { clients := update s.clients id none,
      handlers := fun E =>
        if E ∈ cl.subscriptions then (s.handlers E).map (fun hs => hs.erase id)
        else s.handlers E }

/-- `WebSocketService.unregister_client`: if registered, put the `None`
shutdown sentinel on the client's queue and then `_remove_client` it. -/
def unregister_client (s : HubState) (id : String) : HubState :=
  match s.clients id with
  | none => s
  | some cl =>
    remove_client
      { s with clients := (update s.clients id
          (some { cl with queue := cl.queue ++ [none] })) } id

/-- The timeout test of `WebSocketService._check_client_health`:
`(current_time - client.last_ping).seconds > self.ping_interval * 2`. -/
def timed_out (s : HubState) (now pingInterval : Nat) (id : String) : Bool :=
  match s.clients id with
  | some cl => decide (pyTdSeconds now cl.lastPing > (pingInterval : Int) * 2)
  | none => false

/-- `WebSocketService._check_client_health`: `_remove_client` every
registered client whose timeout test fires.  Removal reads each removed
client's subscription set from the pre-sweep state, exactly as the loop
does (removing one client never edits another client's subscription
set). -/
def check_client_health (s : HubState) (now pingInterval : Nat) : HubState :=
  { clients := fun id =>
      if timed_out s now pingInterval id then none else s.clients id,
    handlers := fun E =>
      (s.handlers E).map (fun hs =>
        hs.filter (fun id =>
          ¬(timed_out s now pingInterval id = true ∧ E ∈ subsOf s id))) }

/-- `WebSocketService.send_to_client`: if `id` is registered, append the
message to its outbound queue (a `queue.Queue`, FIFO). -/
def send_to_client (s : HubState) (id : String) (m : Msg) : HubState :=
  match s.clients id with
  | none => s
  | some cl =>
    { s with clients := (update s.clients id
        (some { cl with queue := cl.queue ++ [some m] })) }

/-- `WebSocketService.broadcast_event`: build the message once and enqueue
it, via `send_to_client`, to every id in `event_handlers[event_type]`
that is registered.  Appends to distinct clients' queues commute, so the
set-iteration order of the Python loop is irrelevant and the effect is
rendered pointwise. -/
def broadcast_event (s : HubState) (E data : String) (now : Nat) : HubState :=
  match s.handlers E with
  | none => s
  | some subs =>
    { s with clients := fun id =>
        match s.clients id with
        | none => none
        | some cl =>
          if id ∈ subs then
            some { cl with queue := cl.queue ++ [some ⟨E, data, now⟩] }
          else some cl }

/-- The `pong` control reply `{'type': 'pong'}`; its payload fields are
absent on the wire and modelled by defaults. -/
def pongMsg : Msg := ⟨"pong", "", 0⟩

/-- `WebSocketService._handle_ping`: if registered, set `last_ping := now`
and enqueue a `pong` reply. -/
def handle_ping (s : HubState) (id : String) (now : Nat) : HubState :=
  match s.clients id with
  | none => s
  | some cl =>
    send_to_client
      { s with clients := update s.clients id (some { cl with lastPing := now }) }
      id pongMsg

/-- The per-client delivery loop of `_start_client_message_thread`: it
repeatedly dequeues from the front of the FIFO queue, stops at the `None`
sentinel, and otherwise writes the message to the transport.  Given the
queue contents, this is the sequence of transport writes it performs. -/
def writesOf : List (Option Msg) → List Msg
  | [] => []
  | none :: _ => []
  | some m :: rest => m :: writesOf rest

/-- The bidirectional subscription invariant: `id` is in the
`event_handlers` set for `E` exactly when `E` is in that client's own
subscription set (an unregistered client's set being empty). -/
def HubInv (s : HubState) : Prop :=
  ∀ id E, id ∈ handlersSet s E ↔ E ∈ subsOf s id

/-- A hub operation, as invoked by the routes layer or the background
sweep. -/
inductive HubOp where
  | register (id : String) (now : Nat)
  | subscribeOp (id E : String)
  | unsubscribeOp (id E : String)
  | unregister (id : String)
  | removeOp (id : String)
  | healthSweep (now pingInterval : Nat)
  | broadcastOp (E data : String) (now : Nat)
  | sendOp (id : String) (m : Msg)
  | pingOp (id : String) (now : Nat)

/-- Precondition under which an operation is issued: `register_client`
allocates a fresh id (`str(id(ws))` of a live object is not the id of any
currently registered client); every other operation is unconstrained. -/
def validOp (s : HubState) : HubOp → Prop
  | .register id _ => s.clients id = none
  | _ => True

/-- Effect of one `HubOp` on the hub state. -/
def applyHubOp (s : HubState) : HubOp → HubState
  | .register id now => register_client s id now
  | .subscribeOp id E => subscribe s id E
  | .unsubscribeOp id E => unsubscribe s id E
  | .unregister id => unregister_client s id
  | .removeOp id => remove_client s id
  | .healthSweep now pingInterval => check_client_health s now pingInterval
  | .broadcastOp E data now => broadcast_event s E data now
  | .sendOp id m => send_to_client s id m
  | .pingOp id now => handle_ping s id now

/-! ## Metrics cache and history (`MetricsService`, `server/metrics_service.py`) -/

/-- A metrics payload: the dict built by the `get_*_metrics` collectors,
as an association list (values rendered as strings).  Python truthiness
of a dict is non-emptiness. -/
abbrev MetricData := List (String × String)

/-- Python truthiness of a metrics dict: `bool(d)` is `d ≠ {}`. -/
def pyTruthy (d : MetricData) : Bool := decide (d ≠ [])

/-- A `MetricCache` entry: `{data, timestamp, ttl}` with `ttl` the
time-to-live in seconds. -/
structure MetricCache where
  data : MetricData
  timestamp : Nat
  ttl : Nat

/-- `MetricsService._cache`: cache key → entry. -/
abbrev Cache := String → Option MetricCache

/-- The empty cache. -/
def emptyCache : Cache := fun _ => none

/-- One entry of a history series: `{'timestamp': iso, 'data': data}`,
with the ISO-8601 timestamp modelled by its instant in microseconds
(`fromisoformat` inverts `isoformat`, so the round-trip is faithful). -/
structure HEntry where
  timestamp : Nat
  data : MetricData
deriving DecidableEq

/-- `MetricsService._metric_history`: a `defaultdict(list)`, so every key
maps to a list, absent keys to `[]`. -/
abbrev HistMap := String → List HEntry

/-- The empty history map. -/
def emptyHist : HistMap := fun _ => []

/-- `MetricsService._history_max_size`: 1000 in the source. -/
def historyMaxSize : Nat := 1000

/-- `MetricsService._get_cache_key(metric_type, server_name)` with no
extra keyword parameters: `f"{metric_type}:{server_name}:{json.dumps({})}"`,
and `json.dumps({})` is the two-character string of an opening and a
closing curly bracket. -/
def get_cache_key (metricType serverName : String) : String :=
  metricType ++ ":" ++ serverName ++ ":" ++ "\x7b\x7d"

/-- `MetricsService._get_from_cache(cache_key)` at instant `now`: a hit
(entry present with `(now - timestamp).seconds <= ttl`) returns the data
and leaves the cache unchanged; an expired entry is deleted and `None`
returned; an absent key returns `None`. -/
def get_from_cache (c : Cache) (key : String) (now : Nat) :
    Option MetricData × Cache :=
  match c key with
  | none => (none, c)
  | some e =>
    if pyTdSeconds now e.timestamp ≤ (e.ttl : Int) then (some e.data, c)
    else (none, update c key none)

/-- `MetricsService._store_in_cache(cache_key, data, ttl)`: overwrite the
entry with `timestamp = utcnow()`. -/
def store_in_cache (c : Cache) (key : String) (data : MetricData)
    (ttl : Nat) (now : Nat) : Cache :=
  update c key (some { data := data, timestamp := now, ttl := ttl })

/-- The per-key update performed by `MetricsService._store_in_history`:
append the entry, then, if the list now exceeds `_history_max_size`, keep
only the last `_history_max_size` entries (the Python slice
`history[-max:]`, i.e. drop the oldest overflow from the front). -/
def storeSeries (h : List HEntry) (e : HEntry) : List HEntry :=
  let h2 := h ++ [e]
  if h2.length > historyMaxSize then h2.drop (h2.length - historyMaxSize) else h2

/-- `MetricsService._store_in_history(metric_type, server_name, data)` at
instant `now`: update the series of key `f"{metric_type}:{server_name}"`. -/
def store_in_history (hist : HistMap) (metricType serverName : String)
    (data : MetricData) (now : Nat) : HistMap :=
  let key := metricType ++ ":" ++ serverName
  update hist key (storeSeries (hist key) { timestamp := now, data := data })

/-- One call to `_store_in_history`, as data for iterating it. -/
structure HOp where
  metricType : String
  serverName : String
  data : MetricData
  now : Nat

/-- Fold of a sequence of `_store_in_history` calls over a history map. -/
def applyHOps (hist : HistMap) (ops : List HOp) : HistMap :=
  ops.foldl (fun h q => store_in_history h q.metricType q.serverName q.data q.now) hist

/-- The entry a history call appends. -/
def entryOf (q : HOp) : HEntry := { timestamp := q.now, data := q.data }

/-- The history key a call targets. -/
def keyOf (q : HOp) : String := q.metricType ++ ":" ++ q.serverName

/-- Observable outcome of one `get_system_metrics`-style lookup:
the value returned, the cache and history afterwards, and whether the
producer (the remote command batch) was invoked. -/
structure LookupResult where
  value : MetricData
  cache : Cache
  hist : HistMap
  invoked : Bool

/-- `MetricsService.get_system_metrics(server_name)` at instant `now`,
with the producer (the four remote commands and their parsing) abstracted
into the value `produced` it would build, and the instance's `cache_ttl`
as a parameter (60 by default).  The source tests the cached value with
`if cached_data:` — Python truthiness — so an empty cached dict falls
through to the producer exactly like a miss. -/
def get_system_metrics (cacheTtl : Nat) (c : Cache) (hist : HistMap)
    (serverName : String) (now : Nat) (produced : MetricData) : LookupResult :=
  let key := get_cache_key "system" serverName
  match get_from_cache c key now with
  | (some d, c1) =>
    if pyTruthy d then
      { value := d, cache := c1, hist := hist, invoked := false }
    else
      { value := produced,
        cache := store_in_cache c1 key produced cacheTtl now,
        hist := store_in_history hist "system" serverName produced now,
        invoked := true }
  | (none, c1) =>
    { value := produced,
      cache := store_in_cache c1 key produced cacheTtl now,
      hist := store_in_history hist "system" serverName produced now,
      invoked := true }

/-- The keep-condition of the filtering loop in
`MetricsService.get_metrics_history`: an entry is skipped iff a provided
`start_time` strictly exceeds its timestamp or a provided `end_time` is
strictly below it. -/
def inRange (startT endT : Option Nat) (t : Nat) : Bool :=
  (match startT with | some st => decide (¬ t < st) | none => true) &&
  (match endT with | some et => decide (¬ et < t) | none => true)

/-- `MetricsService.get_metrics_history(metric_type, server_name,
start_time, end_time)`.  The second component records which list object
is returned: `true` means the branch `return history` was taken, which
returns the very list stored in `_metric_history` (no copy), so later
in-place appends to that series remain visible through the returned
value; `false` means a freshly built filtered list was returned.  (Python
`datetime` objects are always truthy, so `if start_time or end_time:` is
exactly "at least one bound provided".) -/
def get_metrics_history (hist : HistMap) (metricType serverName : String)
    (startT endT : Option Nat) : List HEntry × Bool :=
  let key := metricType ++ ":" ++ serverName
  let history := hist key
  if startT.isSome || endT.isSome then
    (history.filter (fun e => inRange startT endT e.timestamp), false)
  else
    (history, true)

/-- Observation of a previously returned `get_metrics_history` result
after further entries have been appended in place to the same series
(i.e. by `_store_in_history` calls that stayed at or below the cap, which
mutate the stored list object rather than replacing it): an aliased
result shows the appended suffix, a fresh filtered list does not. -/
def observedAfterAppend (r : List HEntry × Bool) (extra : List HEntry) :
    List HEntry :=
  if r.2 then r.1 ++ extra else r.1

/-! ## Helper lemmas -/

theorem update_same {α β : Type} [DecidableEq α] (f : α → β) (k : α) (v : β) :
    update f k v k = v := by
  simp [update]

theorem update_other {α β : Type} [DecidableEq α] (f : α → β) (k : α) (v : β)
    (x : α) (h : x ≠ k) : update f k v x = f x := by
  simp [update, h]

theorem update_update {α β : Type} [DecidableEq α] (f : α → β) (k : α) (v w : β) :
    update (update f k v) k w = update f k w := by
  funext x
  by_cases hx : x = k <;> simp [update, hx]

theorem popLast_concat {α : Type} (l : List α) (x : α) :
    popLast (l ++ [x]) = some (x, l) := by
  simp [popLast]

theorem popLast_eq_some {α : Type} {l : List α} {x : α} {rest : List α}
    (h : popLast l = some (x, rest)) : l = rest ++ [x] := by
  unfold popLast at h
  cases hl : l.reverse with
  | nil => simp [hl] at h
  | cons y ys =>
    simp [hl] at h
    obtain ⟨hy, hr⟩ := h
    subst hy hr
    have := congrArg List.reverse hl
    simpa using this

theorem finish_lease_fields (maxConn : Nat) (poolD : Pool) (name : String)
    (conn : Conn) (cn : Bool) (pd : Option Conn) (now : Nat) (br : Bool) :
    (finish_lease maxConn poolD name conn cn pd now br).leased = conn
    ∧ (finish_lease maxConn poolD name conn cn pd now br).poolDuring = poolD
    ∧ (finish_lease maxConn poolD name conn cn pd now br).createdNew = cn
    ∧ (finish_lease maxConn poolD name conn cn pd now br).probedDead = pd
    ∧ (finish_lease maxConn poolD name conn cn pd now br).closed
        = (if (finish_lease maxConn poolD name conn cn pd now br).returned
           then [] else [conn])
    ∧ (finish_lease maxConn poolD name conn cn pd now br).returned
        = (!br && decide ((poolD name).length < maxConn))
    ∧ (finish_lease maxConn poolD name conn cn pd now br).poolAfter
        = (if (finish_lease maxConn poolD name conn cn pd now br).returned
           then update poolD name (poolD name ++ [(conn, now)]) else poolD) := by
  by_cases hb : br <;> by_cases hl : (poolD name).length < maxConn <;>
    simp [finish_lease, hb, hl]

theorem run_eq_finish (maxConn : Nat) (pool : Pool) (name : String)
    (alive : Conn → Bool) (fresh : Conn) (now : Nat) (br : Bool) :
    get_connection_run maxConn pool name alive fresh now br
      = (match popLast (pool name) with
         | some ((c, _), rest) =>
           if alive c then
             finish_lease maxConn (update pool name rest) name c false none now br
           else
             finish_lease maxConn (update pool name rest) name fresh true (some c) now br
         | none => finish_lease maxConn pool name fresh true none now br) := rfl

/-- C1 (amended): for every run of the scoped lease, exactly one of
"returned to the idle list" and "closed" happens to the leased
connection — on normal return it is pushed back iff the idle list for the
target is below `maxConnections` (and then appended at the end), while on
an exception from the caller's body the return-to-pool block is skipped
and the `finally` block always closes it; the connection is never both
returned and closed, and never leaked. -/
theorem c1_scoped_lease_exactly_one_release (maxConn : Nat) (pool : Pool)
    (name : String) (alive : Conn → Bool) (fresh : Conn) (now : Nat)
    (bodyRaises : Bool) :
    (get_connection_run maxConn pool name alive fresh now bodyRaises).closed
      = (if (get_connection_run maxConn pool name alive fresh now bodyRaises).returned
         then []
         else [(get_connection_run maxConn pool name alive fresh now bodyRaises).leased])
    ∧ (get_connection_run maxConn pool name alive fresh now bodyRaises).returned
      = (!bodyRaises && decide
          (((get_connection_run maxConn pool name alive fresh now bodyRaises).poolDuring
              name).length < maxConn))
    ∧ (get_connection_run maxConn pool name alive fresh now bodyRaises).poolAfter
      = (if (get_connection_run maxConn pool name alive fresh now bodyRaises).returned
         then update
            (get_connection_run maxConn pool name alive fresh now bodyRaises).poolDuring
            name
            (((get_connection_run maxConn pool name alive fresh now bodyRaises).poolDuring
                name)
              ++ [((get_connection_run maxConn pool name alive fresh now bodyRaises).leased,
                    now)])
         else (get_connection_run maxConn pool name alive fresh now bodyRaises).poolDuring) := by
  rw [run_eq_finish]
  cases hpop : popLast (pool name) with
  | none =>
    obtain ⟨h1, h2, _, _, h5, h6, h7⟩ :=
      finish_lease_fields maxConn pool name fresh true none now bodyRaises
    exact ⟨by rw [h5, h1], by rw [h6, h2], by rw [h7, h2, h1]⟩
  | some cr =>
    obtain ⟨⟨c, t⟩, rest⟩ := cr
    by_cases ha : alive c
    · simp only [ha, if_true]
      obtain ⟨h1, h2, _, _, h5, h6, h7⟩ :=
        finish_lease_fields maxConn (update pool name rest) name c false none now bodyRaises
      exact ⟨by rw [h5, h1], by rw [h6, h2], by rw [h7, h2, h1]⟩
    · simp only [ha, if_false, Bool.false_eq_true]
      obtain ⟨h1, h2, _, _, h5, h6, h7⟩ :=
        finish_lease_fields maxConn (update pool name rest) name fresh true (some c) now
          bodyRaises
      exact ⟨by rw [h5, h1], by rw [h6, h2], by rw [h7, h2, h1]⟩

/-- C1 counterexample: with an empty idle list (strictly below
`maxConnections`) and an exception raised by the caller's body, the
connection is closed and NOT pushed back onto the idle list, so the
claim's "the same return-or-close logic runs on every exit path" fails:
the exception path never returns a connection to the pool. -/
theorem c1_exception_path_always_closes :
    ((get_connection_run 10 emptyPool "h" (fun _ => true) 7 100 true).poolDuring "h").length < 10
    ∧ (get_connection_run 10 emptyPool "h" (fun _ => true) 7 100 true).returned = false
    ∧ (get_connection_run 10 emptyPool "h" (fun _ => true) 7 100 true).closed
        = [(get_connection_run 10 emptyPool "h" (fun _ => true) 7 100 true).leased] := by
  refine ⟨by decide, rfl, rfl⟩

/-- C6 (amended): when the popped idle connection fails its liveness
probe, `get_connection` drops the dead handle without ever calling
`close()` on it (the source only rebinds `connection = None`), creates a
fresh session via `connect_func`, and never returns the failed handle to
the caller. -/
theorem c6_dead_probe_dropped_without_close (maxConn : Nat) (pool : Pool)
    (name : String) (alive : Conn → Bool) (fresh : Conn) (now : Nat)
    (bodyRaises : Bool) (c : Conn) (t : Nat) (rest : List (Conn × Nat))
    (hpool : pool name = rest ++ [(c, t)]) (hdead : alive c = false)
    (hfresh : fresh ≠ c) :
    (get_connection_run maxConn pool name alive fresh now bodyRaises).leased = fresh
    ∧ (get_connection_run maxConn pool name alive fresh now bodyRaises).createdNew = true
    ∧ (get_connection_run maxConn pool name alive fresh now bodyRaises).probedDead = some c
    ∧ c ∉ (get_connection_run maxConn pool name alive fresh now bodyRaises).closed := by
  have hpop : popLast (pool name) = some ((c, t), rest) := by
    rw [hpool]; exact popLast_concat rest (c, t)
  rw [run_eq_finish, hpop]
  simp only [hdead, Bool.false_eq_true, if_false]
  obtain ⟨h1, _, h3, h4, h5, _, _⟩ :=
    finish_lease_fields maxConn (update pool name rest) name fresh true (some c) now bodyRaises
  refine ⟨h1, h3, h4, ?_⟩
  rw [h5]
  by_cases hr :
      (finish_lease maxConn (update pool name rest) name fresh true (some c) now
        bodyRaises).returned
  · simp [hr]
  · simp [hr, hfresh.symm]

/-- C6 counterexample: a pool holding one idle connection (handle 5)
whose liveness probe fails — `probedDead = some 5` — completes a whole
lease run in which `close()` is never invoked at all (`closed = []`), so
in particular the dead handle is not "discarded by closing": the source
merely rebinds `connection = None` and drops the reference. -/
theorem c6_dead_handle_never_closed :
    (get_connection_run 10 (update emptyPool "h" [(5, 0)]) "h" (fun _ => false) 7 3
        false).probedDead = some 5
    ∧ (get_connection_run 10 (update emptyPool "h" [(5, 0)]) "h" (fun _ => false) 7 3
        false).closed = [] := by
  exact ⟨rfl, rfl⟩

/-- C6 witness. -/
theorem c6_witness :
    (get_connection_run 10 (update emptyPool "h" [(5, 0)]) "h" (fun _ => false) 7 3
        false).leased = 7
    ∧ 5 ∉ (get_connection_run 10 (update emptyPool "h" [(5, 0)]) "h" (fun _ => false) 7 3
        false).closed := by
  have h := c6_dead_probe_dropped_without_close 10 (update emptyPool "h" [(5, 0)]) "h"
    (fun _ => false) 7 3 false 5 0 [] (by simp [update]) rfl (by decide)
  exact ⟨h.1, h.2.2.2⟩

theorem bounded_cleanup (maxConn : Nat) (pool : Pool) (now maxIdle : Nat)
    (h : BoundedPool maxConn pool) :
    BoundedPool maxConn (cleanup_idle_connections pool now maxIdle) := by
  intro n
  calc ((pool n).filter _).length ≤ (pool n).length := List.length_filter_le _ _
    _ ≤ maxConn := h n

theorem bounded_update_le (maxConn : Nat) (pool : Pool) (name : String)
    (l : List (Conn × Nat)) (h : BoundedPool maxConn pool)
    (hl : l.length ≤ maxConn) : BoundedPool maxConn (update pool name l) := by
  intro n
  by_cases hn : n = name
  · rw [hn, update_same]; exact hl
  · rw [update_other _ _ _ _ hn]; exact h n

theorem bounded_run (maxConn : Nat) (pool : Pool) (name : String)
    (alive : Conn → Bool) (fresh : Conn) (now : Nat) (br : Bool)
    (h : BoundedPool maxConn pool) :
    BoundedPool maxConn
      (get_connection_run maxConn pool name alive fresh now br).poolAfter := by
  have key : ∀ (poolD : Pool) (conn : Conn) (cn : Bool) (pd : Option Conn),
      BoundedPool maxConn poolD →
      BoundedPool maxConn (finish_lease maxConn poolD name conn cn pd now br).poolAfter := by
    intro poolD conn cn pd hD
    obtain ⟨_, _, _, _, _, h6, h7⟩ := finish_lease_fields maxConn poolD name conn cn pd now br
    rw [h7]
    by_cases hr : (finish_lease maxConn poolD name conn cn pd now br).returned
    · rw [if_pos hr]
      have hlen : (poolD name).length < maxConn := by
        rw [hr] at h6
        have := of_decide_eq_true (Bool.and_elim_right h6.symm)
        exact this
      refine bounded_update_le maxConn poolD name _ hD ?_
      simpa using hlen
    · rw [if_neg hr]; exact hD
  rw [run_eq_finish]
  cases hpop : popLast (pool name) with
  | none => exact key pool fresh true none h
  | some cr =>
    obtain ⟨⟨c, t⟩, rest⟩ := cr
    have hrest : BoundedPool maxConn (update pool name rest) := by
      refine bounded_update_le maxConn pool name rest h ?_
      have := popLast_eq_some hpop
      have hlen : rest.length ≤ (pool name).length := by
        rw [this]; simp
      exact le_trans hlen (h name)
    by_cases ha : alive c
    · simp only [ha, if_true]; exact key (update pool name rest) c false none hrest
    · simp only [ha, Bool.false_eq_true, if_false]
      exact key (update pool name rest) fresh true (some c) hrest

/-- C5 (confirmed): (a) starting from any pool satisfying the bound, any
sequence of scoped leases (acquire + release) and reaper runs leaves
every target's idle list at `maxConnections` entries or fewer; (b) a
connection popped for a lease — one that occurred only in the popped
position — is absent from the whole `connections` map while the lease is
out (until the return-or-close logic runs). -/
theorem c5_pool_bound_and_lease_absence (maxConn : Nat) :
    (∀ (ops : List PoolOp) (pool : Pool), BoundedPool maxConn pool →
       BoundedPool maxConn (ops.foldl (applyPoolOp maxConn) pool))
    ∧ (∀ (pool : Pool) (name : String) (alive : Conn → Bool) (fresh : Conn)
         (now : Nat) (bodyRaises : Bool) (c : Conn) (t : Nat)
         (rest : List (Conn × Nat)),
         pool name = rest ++ [(c, t)] →
         c ∉ rest.map Prod.fst →
         (∀ n, n ≠ name → c ∉ (pool n).map Prod.fst) →
         ∀ n, c ∉ (((get_connection_run maxConn pool name alive fresh now
             bodyRaises).poolDuring) n).map Prod.fst) := by
  constructor
  · intro ops
    induction ops with
    | nil => intro pool h; simpa using h
    | cons op rest ih =>
      intro pool h
      rw [List.foldl_cons]
      refine ih (applyPoolOp maxConn pool op) ?_
      cases op with
      | lease name alive fresh now br => exact bounded_run maxConn pool name alive fresh now br h
      | reap now maxIdle => exact bounded_cleanup maxConn pool now maxIdle h
  · intro pool name alive fresh now bodyRaises c t rest hpool hrest hothers n
    have hpop : popLast (pool name) = some ((c, t), rest) := by
      rw [hpool]; exact popLast_concat rest (c, t)
    have hD : (get_connection_run maxConn pool name alive fresh now
        bodyRaises).poolDuring = update pool name rest := by
      rw [run_eq_finish, hpop]
      by_cases ha : alive c
      · simp only [ha, if_true]
        exact (finish_lease_fields maxConn (update pool name rest) name c false none now
          bodyRaises).2.1
      · simp only [ha, Bool.false_eq_true, if_false]
        exact (finish_lease_fields maxConn (update pool name rest) name fresh true (some c)
          now bodyRaises).2.1
    rw [hD]
    by_cases hn : n = name
    · rw [hn, update_same]; exact hrest
    · rw [update_other _ _ _ _ hn]; exact hothers n hn

/-- C5 witness. -/
theorem c5_witness :
    (([PoolOp.lease "h" (fun _ => true) 5 10 false].foldl (applyPoolOp 2) emptyPool) "h").length ≤ 2
    ∧ 3 ∉ (((get_connection_run 2 (update emptyPool "h" [(4, 0), (3, 1)]) "h"
        (fun _ => true) 9 5 false).poolDuring) "h").map Prod.fst := by
  constructor
  · exact (c5_pool_bound_and_lease_absence 2).1 [PoolOp.lease "h" (fun _ => true) 5 10 false]
      emptyPool (fun n => by simp [emptyPool]) "h"
  · exact (c5_pool_bound_and_lease_absence 2).2 (update emptyPool "h" [(4, 0), (3, 1)]) "h"
      (fun _ => true) 9 5 false 3 1 [(4, 0)] (by simp [update]) (by decide)
      (fun n hn => by simp [update_other _ _ _ _ hn, emptyPool]) "h"

/-! ## Hub lemmas -/

theorem subsOf_some {s : HubState} {id : String} {cl : Client}
    (h : s.clients id = some cl) : subsOf s id = cl.subscriptions := by
  simp [subsOf, h]

theorem subsOf_none {s : HubState} {id : String} (h : s.clients id = none) :
    subsOf s id = ∅ := by
  simp [subsOf, h]

theorem subscribe_not_registered {s : HubState} {id E : String}
    (h : s.clients id = none) : subscribe s id E = s := by
  simp [subscribe, h]

theorem unsubscribe_not_registered {s : HubState} {id E : String}
    (h : s.clients id = none) : unsubscribe s id E = s := by
  simp [unsubscribe, h]

theorem inv_register (s : HubState) (id0 : String) (now : Nat)
    (hfresh : s.clients id0 = none) (hInv : HubInv s) :
    HubInv (register_client s id0 now) := by
  intro id E
  have hh : handlersSet (register_client s id0 now) E = handlersSet s E := rfl
  rw [hh]
  by_cases hid : id = id0
  · have hs : subsOf (register_client s id0 now) id = ∅ := by
      simp [register_client, subsOf, update, hid]
    rw [hs]
    have h0 : subsOf s id = ∅ := by rw [hid]; exact subsOf_none hfresh
    have hbase := hInv id E
    rw [h0] at hbase
    simpa using hbase
  · have hs : subsOf (register_client s id0 now) id = subsOf s id := by
      simp [register_client, subsOf, update, hid]
    rw [hs]
    exact hInv id E

theorem inv_subscribe (s : HubState) (id0 E0 : String) (hInv : HubInv s) :
    HubInv (subscribe s id0 E0) := by
  cases hc : s.clients id0 with
  | none => rw [subscribe_not_registered hc]; exact hInv
  | some cl =>
    intro id E
    have hH : handlersSet (subscribe s id0 E0) E
        = if E = E0 then insert id0 (handlersSet s E0) else handlersSet s E := by
      simp only [subscribe, hc, handlersSet]
      by_cases hE : E = E0 <;> simp [update, hE]
    have hS : subsOf (subscribe s id0 E0) id
        = if id = id0 then insert E0 cl.subscriptions else subsOf s id := by
      simp only [subscribe, hc, subsOf]
      by_cases hid : id = id0 <;> simp [update, hid]
    rw [hH, hS]
    by_cases hid : id = id0 <;> by_cases hE : E = E0
    · subst hid; subst hE; simp
    · subst hid
      rw [if_pos rfl, if_neg hE, Finset.mem_insert]
      have hbase := hInv id E
      rw [subsOf_some hc] at hbase
      constructor
      · intro h; exact Or.inr (hbase.mp h)
      · rintro (h | h)
        · exact absurd h hE
        · exact hbase.mpr h
    · subst hE
      rw [if_neg hid, if_pos rfl, Finset.mem_insert]
      constructor
      · rintro (h | h)
        · exact absurd h hid
        · exact (hInv id E).mp h
      · intro h; exact Or.inr ((hInv id E).mpr h)
    · rw [if_neg hid, if_neg hE]; exact hInv id E

theorem inv_unsubscribe (s : HubState) (id0 E0 : String) (hInv : HubInv s) :
    HubInv (unsubscribe s id0 E0) := by
  cases hc : s.clients id0 with
  | none => rw [unsubscribe_not_registered hc]; exact hInv
  | some cl =>
    intro id E
    have hS : subsOf (unsubscribe s id0 E0) id
        = if id = id0 then cl.subscriptions.erase E0 else subsOf s id := by
      simp only [unsubscribe, hc, subsOf]
      cases hh : s.handlers E0 <;>
        · by_cases hid : id = id0 <;> simp [update, hid]
    have hH : handlersSet (unsubscribe s id0 E0) E
        = if E = E0 then (handlersSet s E0).erase id0 else handlersSet s E := by
      simp only [unsubscribe, hc, handlersSet]
      cases hh : s.handlers E0 with
      | none =>
        by_cases hE : E = E0
        · subst hE; simp [hh]
        · simp [hE]
      | some hs0 =>
        by_cases hE : E = E0
        · subst hE; simp [hh, update]
        · simp [hh, update, hE]
    rw [hH, hS]
    by_cases hid : id = id0 <;> by_cases hE : E = E0
    · subst hid; subst hE; simp
    · subst hid
      rw [if_pos rfl, if_neg hE, Finset.mem_erase]
      have hbase := hInv id E
      rw [subsOf_some hc] at hbase
      constructor
      · intro h; exact ⟨hE, hbase.mp h⟩
      · rintro ⟨_, h⟩; exact hbase.mpr h
    · subst hE
      rw [if_neg hid, if_pos rfl, Finset.mem_erase]
      constructor
      · rintro ⟨_, h⟩; exact (hInv id E).mp h
      · intro h; exact ⟨hid, (hInv id E).mpr h⟩
    · rw [if_neg hid, if_neg hE]; exact hInv id E

theorem inv_remove (s : HubState) (id0 : String) (hInv : HubInv s) :
    HubInv (remove_client s id0) := by
  cases hc : s.clients id0 with
  | none =>
    have heq : remove_client s id0 = s := by simp [remove_client, hc]
    rw [heq]; exact hInv
  | some cl =>
    intro id E
    have hS : subsOf (remove_client s id0) id
        = if id = id0 then ∅ else subsOf s id := by
      simp only [remove_client, hc, subsOf]
      by_cases hid : id = id0 <;> simp [update, hid]
    have hH : handlersSet (remove_client s id0) E
        = if E ∈ cl.subscriptions then (handlersSet s E).erase id0
          else handlersSet s E := by
      simp only [remove_client, hc, handlersSet]
      by_cases hE : E ∈ cl.subscriptions
      · cases hh : s.handlers E <;> simp [hh, hE]
      · simp [hE]
    rw [hH, hS]
    by_cases hid : id = id0
    · subst hid
      rw [if_pos rfl]
      by_cases hE : E ∈ cl.subscriptions
      · simp [hE]
      · rw [if_neg hE]
        simp only [Finset.not_mem_empty, iff_false]
        intro h
        have := (hInv id E).mp h
        rw [subsOf_some hc] at this
        exact hE this
    · rw [if_neg hid]
      by_cases hE : E ∈ cl.subscriptions
      · rw [if_pos hE, Finset.mem_erase]
        constructor
        · rintro ⟨_, h⟩; exact (hInv id E).mp h
        · intro h; exact ⟨hid, (hInv id E).mpr h⟩
      · rw [if_neg hE]; exact hInv id E

theorem inv_unregister (s : HubState) (id0 : String) (hInv : HubInv s) :
    HubInv (unregister_client s id0) := by
  cases hc : s.clients id0 with
  | none =>
    have heq : unregister_client s id0 = s := by simp [unregister_client, hc]
    rw [heq]; exact hInv
  | some cl =>
    have heq : unregister_client s id0
        = remove_client
            { s with clients := (update s.clients id0
                (some { cl with queue := cl.queue ++ [none] })) } id0 := by
      simp [unregister_client, hc]
    rw [heq]
    apply inv_remove
    intro id E
    have hS : subsOf
        { s with clients := (update s.clients id0
            (some { cl with queue := cl.queue ++ [none] })) } id = subsOf s id := by
      by_cases hid : id = id0 <;> simp [subsOf, update, hid, hc]
    rw [hS]
    exact hInv id E

theorem inv_health (s : HubState) (now pingInterval : Nat) (hInv : HubInv s) :
    HubInv (check_client_health s now pingInterval) := by
  intro id E
  have hS : subsOf (check_client_health s now pingInterval) id
      = if timed_out s now pingInterval id then ∅ else subsOf s id := by
    simp only [check_client_health, subsOf]
    by_cases ht : timed_out s now pingInterval id = true <;> simp [ht]
  have hH : handlersSet (check_client_health s now pingInterval) E
      = (handlersSet s E).filter
          (fun id => ¬(timed_out s now pingInterval id = true ∧ E ∈ subsOf s id)) := by
    simp only [check_client_health, handlersSet]
    cases hh : s.handlers E <;> simp [hh]
  rw [hH, hS, Finset.mem_filter]
  by_cases ht : timed_out s now pingInterval id = true
  · rw [if_pos ht]
    simp only [Finset.not_mem_empty, iff_false]
    rintro ⟨hmem, hpred⟩
    exact hpred ⟨ht, (hInv id E).mp hmem⟩
  · rw [if_neg ht]
    constructor
    · rintro ⟨hmem, _⟩; exact (hInv id E).mp hmem
    · intro h
      exact ⟨(hInv id E).mpr h, fun hand => ht hand.1⟩

theorem inv_broadcast (s : HubState) (E0 data : String) (now : Nat)
    (hInv : HubInv s) : HubInv (broadcast_event s E0 data now) := by
  cases hh : s.handlers E0 with
  | none =>
    have heq : broadcast_event s E0 data now = s := by simp [broadcast_event, hh]
    rw [heq]; exact hInv
  | some subs =>
    intro id E
    have hH : handlersSet (broadcast_event s E0 data now) E = handlersSet s E := by
      simp [broadcast_event, hh, handlersSet]
    have hS : subsOf (broadcast_event s E0 data now) id = subsOf s id := by
      simp only [broadcast_event, hh, subsOf]
      cases hc : s.clients id with
      | none => simp [hc]
      | some cl => by_cases hmem : id ∈ subs <;> simp [hc, hmem]
    rw [hH, hS]
    exact hInv id E

theorem inv_send (s : HubState) (id0 : String) (m : Msg) (hInv : HubInv s) :
    HubInv (send_to_client s id0 m) := by
  cases hc : s.clients id0 with
  | none =>
    have heq : send_to_client s id0 m = s := by simp [send_to_client, hc]
    rw [heq]; exact hInv
  | some cl =>
    intro id E
    have hH : handlersSet (send_to_client s id0 m) E = handlersSet s E := by
      simp [send_to_client, hc, handlersSet]
    have hS : subsOf (send_to_client s id0 m) id = subsOf s id := by
      simp only [send_to_client, hc, subsOf]
      by_cases hid : id = id0 <;> simp [update, hid, hc]
    rw [hH, hS]
    exact hInv id E

theorem inv_ping (s : HubState) (id0 : String) (now : Nat) (hInv : HubInv s) :
    HubInv (handle_ping s id0 now) := by
  cases hc : s.clients id0 with
  | none =>
    have heq : handle_ping s id0 now = s := by simp [handle_ping, hc]
    rw [heq]; exact hInv
  | some cl =>
    have heq : handle_ping s id0 now
        = send_to_client
            { s with clients := (update s.clients id0
                (some { cl with lastPing := now })) } id0 pongMsg := by
      simp [handle_ping, hc]
    rw [heq]
    apply inv_send
    intro id E
    have hS : subsOf
        { s with clients := (update s.clients id0
            (some { cl with lastPing := now })) } id = subsOf s id := by
      by_cases hid : id = id0 <;> simp [subsOf, update, hid, hc]
    rw [hS]
    exact hInv id E

/-- C4 (confirmed): the bidirectional subscription invariant — a client
id is in the `event_handlers` set for `E` iff `E` is in that client's own
subscription set — is preserved by every hub operation (registration of a
fresh id, subscribe, unsubscribe, unregister, direct removal on delivery
failure, the liveness sweep, broadcast, enqueue, ping); and subscribe and
unsubscribe are complete no-ops when the client id is not registered. -/
theorem c4_bidirectional_invariant :
    (∀ (s : HubState) (op : HubOp), HubInv s → validOp s op →
       HubInv (applyHubOp s op))
    ∧ (∀ (s : HubState) (id E : String), s.clients id = none →
       subscribe s id E = s ∧ unsubscribe s id E = s) := by
  constructor
  · intro s op hInv hvalid
    cases op with
    | register id now => exact inv_register s id now hvalid hInv
    | subscribeOp id E => exact inv_subscribe s id E hInv
    | unsubscribeOp id E => exact inv_unsubscribe s id E hInv
    | unregister id => exact inv_unregister s id hInv
    | removeOp id => exact inv_remove s id hInv
    | healthSweep now pingInterval => exact inv_health s now pingInterval hInv
    | broadcastOp E data now => exact inv_broadcast s E data now hInv
    | sendOp id m => exact inv_send s id m hInv
    | pingOp id now => exact inv_ping s id now hInv
  · intro s id E h
    exact ⟨subscribe_not_registered h, unsubscribe_not_registered h⟩

/-- C4 witness. -/
theorem c4_witness :
    HubInv emptyHub ∧ HubInv (applyHubOp emptyHub (HubOp.subscribeOp "c" "x")) := by
  have hInv : HubInv emptyHub := by
    intro id E
    simp [handlersSet, subsOf, emptyHub]
  exact ⟨hInv, c4_bidirectional_invariant.1 emptyHub (HubOp.subscribeOp "c" "x") hInv trivial⟩

theorem writesOf_map_some (ms : List Msg) : writesOf (ms.map some) = ms := by
  induction ms with
  | nil => rfl
  | cons m rest ih => simp [writesOf, ih]

theorem writesOf_append_no_sentinel (q : List (Option Msg)) (ms : List Msg)
    (h : (none : Option Msg) ∉ q) :
    writesOf (q ++ ms.map some) = writesOf q ++ ms := by
  induction q with
  | nil => simp [writesOf, writesOf_map_some]
  | cons o rest ih =>
    cases o with
    | none => exact (h (List.mem_cons_self _ _)).elim
    | some m =>
      have h2 : (none : Option Msg) ∉ rest := fun hm => h (List.mem_cons_of_mem _ hm)
      simp [writesOf, ih h2]

theorem broadcast_handlers (s : HubState) (E data : String) (now : Nat) :
    (broadcast_event s E data now).handlers = s.handlers := by
  cases hh : s.handlers E <;> simp [broadcast_event, hh]

theorem broadcast_clients_subscribed (s : HubState) (E data : String) (now : Nat)
    (c : String) (cl : Client) (hc : s.clients c = some cl)
    (hmem : c ∈ handlersSet s E) :
    (broadcast_event s E data now).clients c
      = some { cl with queue := cl.queue ++ [some ⟨E, data, now⟩] } := by
  cases hh : s.handlers E with
  | none =>
    rw [handlersSet, hh] at hmem
    simp at hmem
  | some subs =>
    have hsubs : c ∈ subs := by
      rw [handlersSet, hh] at hmem
      simpa using hmem
    simp [broadcast_event, hh, hc, hsubs]

/-- C3 (confirmed): a broadcast enqueues the `{type, data, timestamp}`
message onto the queues of any two distinct registered clients subscribed
to the event type; and for a single subscribed client, two broadcasts
enqueued in order A then B are written to its transport in order A then B,
because the per-client delivery loop dequeues the FIFO queue strictly in
order (nothing relates the delivery loops of different clients). -/
theorem c3_broadcast_reaches_both_and_fifo_order :
    (∀ (s : HubState) (E data : String) (now : Nat) (c1 c2 : String)
       (cl1 cl2 : Client),
       c1 ≠ c2 → s.clients c1 = some cl1 → s.clients c2 = some cl2 →
       c1 ∈ handlersSet s E → c2 ∈ handlersSet s E →
       (broadcast_event s E data now).clients c1
           = some { cl1 with queue := cl1.queue ++ [some ⟨E, data, now⟩] }
       ∧ (broadcast_event s E data now).clients c2
           = some { cl2 with queue := cl2.queue ++ [some ⟨E, data, now⟩] })
    ∧ (∀ (s : HubState) (E dA dB : String) (tA tB : Nat) (c : String) (cl : Client),
       s.clients c = some cl → c ∈ handlersSet s E →
       (none : Option Msg) ∉ cl.queue →
       ∃ cl2, (broadcast_event (broadcast_event s E dA tA) E dB tB).clients c = some cl2
         ∧ writesOf cl2.queue
             = writesOf cl.queue ++ [⟨E, dA, tA⟩, ⟨E, dB, tB⟩]) := by
  constructor
  · intro s E data now c1 c2 cl1 cl2 hne h1 h2 m1 m2
    exact ⟨broadcast_clients_subscribed s E data now c1 cl1 h1 m1,
           broadcast_clients_subscribed s E data now c2 cl2 h2 m2⟩
  · intro s E dA dB tA tB c cl hc hmem hq
    have h1 := broadcast_clients_subscribed s E dA tA c cl hc hmem
    have hmem1 : c ∈ handlersSet (broadcast_event s E dA tA) E := by
      show c ∈ ((broadcast_event s E dA tA).handlers E).getD ∅
      rw [broadcast_handlers s E dA tA]
      exact hmem
    have h2 := broadcast_clients_subscribed (broadcast_event s E dA tA) E dB tB c
      { cl with queue := cl.queue ++ [some ⟨E, dA, tA⟩] } h1 hmem1
    refine ⟨_, h2, ?_⟩
    show writesOf ((cl.queue ++ [some ⟨E, dA, tA⟩]) ++ [some ⟨E, dB, tB⟩]) = _
    rw [List.append_assoc]
    have hmap : ([some ⟨E, dA, tA⟩] ++ [some ⟨E, dB, tB⟩] : List (Option Msg))
        = ([⟨E, dA, tA⟩, ⟨E, dB, tB⟩] : List Msg).map some := rfl
    rw [hmap, writesOf_append_no_sentinel cl.queue _ hq]

/-- C3 witness. -/
theorem c3_witness :
    (broadcast_event
        { clients := fun id => if id = "a" then some ⟨{"ev"}, 0, []⟩
            else if id = "b" then some ⟨{"ev"}, 0, []⟩ else none,
          handlers := fun E => if E = "ev" then some {"a", "b"} else none }
        "ev" "d" 5).clients "a"
      = some ⟨{"ev"}, 0, [some ⟨"ev", "d", 5⟩]⟩
    ∧ (broadcast_event
        { clients := fun id => if id = "a" then some ⟨{"ev"}, 0, []⟩
            else if id = "b" then some ⟨{"ev"}, 0, []⟩ else none,
          handlers := fun E => if E = "ev" then some {"a", "b"} else none }
        "ev" "d" 5).clients "b"
      = some ⟨{"ev"}, 0, [some ⟨"ev", "d", 5⟩]⟩ := by
  have h := c3_broadcast_reaches_both_and_fifo_order.1
    { clients := fun id => if id = "a" then some ⟨{"ev"}, 0, []⟩
        else if id = "b" then some ⟨{"ev"}, 0, []⟩ else none,
      handlers := fun E => if E = "ev" then some {"a", "b"} else none }
    "ev" "d" 5 "a" "b" ⟨{"ev"}, 0, []⟩ ⟨{"ev"}, 0, []⟩
    (by decide) (by decide) (by decide) (by decide) (by decide)
  exact ⟨h.1, h.2⟩

/-- C7 (code bug): a client whose last ping is one day plus ten seconds
old at sweep time — so its elapsed time `86410 s` far exceeds
`2 * pingInterval = 60 s` — SURVIVES the liveness sweep, because the
source compares `(now - lastPing).seconds`, the sub-day seconds component
`86410 mod 86400 = 10`, instead of the total elapsed seconds. -/
theorem c7_day_stale_client_survives_sweep :
    (86410000000 : Nat) / 1000000 > 2 * 30
    ∧ (check_client_health
        { clients := fun id => if id = "c" then some ⟨∅, 0, []⟩ else none,
          handlers := fun _ => none } 86410000000 30).clients "c"
      = some ⟨∅, 0, []⟩ := by
  constructor
  · decide
  · rfl

theorem subscribe_registered (s : HubState) (id E : String) (cl : Client)
    (hc : s.clients id = some cl) :
    subscribe s id E
      = { clients := (update s.clients id
            (some { cl with subscriptions := insert E cl.subscriptions })),
          handlers := (update s.handlers E (some (insert id (handlersSet s E)))) } := by
  simp [subscribe, hc]

theorem unsubscribe_registered (s : HubState) (id E : String) (cl : Client)
    (hc : s.clients id = some cl) :
    unsubscribe s id E
      = { clients := (update s.clients id
            (some { cl with subscriptions := cl.subscriptions.erase E })),
          handlers := (match s.handlers E with
            | none => s.handlers
            | some hs => update s.handlers E (some (hs.erase id))) } := by
  simp [unsubscribe, hc]

theorem clients_subscribe_self (s : HubState) (id E : String) (cl : Client)
    (hc : s.clients id = some cl) :
    (subscribe s id E).clients id
      = some { cl with subscriptions := insert E cl.subscriptions } := by
  rw [subscribe_registered s id E cl hc]
  simp [update]

theorem handlersSet_subscribe_self (s : HubState) (id E : String) (cl : Client)
    (hc : s.clients id = some cl) :
    handlersSet (subscribe s id E) E = insert id (handlersSet s E) := by
  rw [subscribe_registered s id E cl hc]
  simp [handlersSet, update]

theorem subsOf_unsubscribe_self (s : HubState) (id E : String) (cl : Client)
    (hc : s.clients id = some cl) :
    subsOf (unsubscribe s id E) id = cl.subscriptions.erase E := by
  rw [unsubscribe_registered s id E cl hc]
  simp [subsOf, update]

theorem handlersSet_unsubscribe (s : HubState) (id E : String) (cl : Client)
    (hc : s.clients id = some cl) :
    handlersSet (unsubscribe s id E) E = (handlersSet s E).erase id := by
  rw [unsubscribe_registered s id E cl hc]
  cases hh : s.handlers E with
  | none => simp [handlersSet, hh]
  | some hs => simp [handlersSet, hh, update]

/-- C10 (amended): subscribe and unsubscribe are idempotent on the whole
hub state; and subscribe immediately followed by unsubscribe restores the
client's subscription set and the event's subscriber set provided the
client was not already subscribed to that event type (when it was, the
pair strictly removes the pre-existing subscription). -/
theorem c10_idempotent_and_conditional_restore :
    (∀ (s : HubState) (id E : String),
       subscribe (subscribe s id E) id E = subscribe s id E)
    ∧ (∀ (s : HubState) (id E : String),
       unsubscribe (unsubscribe s id E) id E = unsubscribe s id E)
    ∧ (∀ (s : HubState) (id E : String), HubInv s → E ∉ subsOf s id →
       subsOf (unsubscribe (subscribe s id E) id E) id = subsOf s id
       ∧ handlersSet (unsubscribe (subscribe s id E) id E) E = handlersSet s E) := by
  refine ⟨?_, ?_, ?_⟩
  · intro s id E
    cases hc : s.clients id with
    | none => rw [subscribe_not_registered hc, subscribe_not_registered hc]
    | some cl =>
      rw [subscribe_registered s id E cl hc]
      rw [subscribe_registered _ id E ({ cl with subscriptions := insert E cl.subscriptions })
        (by simp [update])]
      have hh : handlersSet
          ({ clients := (update s.clients id
                (some { cl with subscriptions := insert E cl.subscriptions })),
             handlers := (update s.handlers E
                (some (insert id (handlersSet s E)))) } : HubState) E
          = insert id (handlersSet s E) := by
        simp [handlersSet, update]
      rw [hh]
      simp [update_update, Finset.insert_idem]
  · intro s id E
    cases hc : s.clients id with
    | none => rw [unsubscribe_not_registered hc, unsubscribe_not_registered hc]
    | some cl =>
      cases hh : s.handlers E with
      | none =>
        rw [unsubscribe_registered s id E cl hc]
        simp only [hh]
        rw [unsubscribe_registered _ id E
          ({ cl with subscriptions := cl.subscriptions.erase E }) (by simp [update])]
        simp only [hh]
        rw [update_update]
        simp [Finset.erase_idem]
      | some hs =>
        rw [unsubscribe_registered s id E cl hc]
        simp only [hh]
        rw [unsubscribe_registered _ id E
          ({ cl with subscriptions := cl.subscriptions.erase E }) (by simp [update])]
        have h2 : (update s.handlers E (some (hs.erase id))) E = some (hs.erase id) :=
          update_same s.handlers E (some (hs.erase id))
        simp only [h2]
        rw [update_update, update_update]
        simp [Finset.erase_idem]
  · intro s id E hInv hnot
    cases hc : s.clients id with
    | none =>
      rw [subscribe_not_registered hc, unsubscribe_not_registered hc]
      exact ⟨rfl, rfl⟩
    | some cl =>
      have hnotc : E ∉ cl.subscriptions := by
        rw [subsOf_some hc] at hnot
        exact hnot
      have hid0 : id ∉ handlersSet s E := fun h => hnot ((hInv id E).mp h)
      have hstep1 := clients_subscribe_self s id E cl hc
      constructor
      · rw [subsOf_unsubscribe_self (subscribe s id E) id E _ hstep1]
        show (insert E cl.subscriptions).erase E = subsOf s id
        rw [Finset.erase_insert hnotc, subsOf_some hc]
      · rw [handlersSet_unsubscribe (subscribe s id E) id E _ hstep1]
        rw [handlersSet_subscribe_self s id E cl hc]
        exact Finset.erase_insert hid0

/-- C10 counterexample: for a client already subscribed to the event
type, subscribe followed by unsubscribe does NOT restore the previous
state — the pre-existing subscription is removed (`discard` erases the
element that `add` found already present). -/
theorem c10_sub_unsub_drops_existing_subscription :
    subsOf
      (unsubscribe
        (subscribe
          { clients := fun id => if id = "c" then some ⟨{"x"}, 0, []⟩ else none,
            handlers := fun E => if E = "x" then some {"c"} else none } "c" "x")
        "c" "x") "c"
    ≠ subsOf
      { clients := fun id => if id = "c" then some ⟨{"x"}, 0, []⟩ else none,
        handlers := fun E => if E = "x" then some {"c"} else none } "c" := by
  decide

/-- C10 witness. -/
theorem c10_witness :
    subsOf
      (unsubscribe
        (subscribe
          { clients := fun id => if id = "c" then some ⟨∅, 0, []⟩ else none,
            handlers := fun _ => none } "c" "x") "c" "x") "c"
    = subsOf
        { clients := fun id => if id = "c" then some ⟨∅, 0, []⟩ else none,
          handlers := fun _ => none } "c" := by
  have hInv : HubInv
      { clients := fun id => if id = "c" then some ⟨∅, 0, []⟩ else none,
        handlers := fun _ => none } := by
    intro id E
    by_cases hid : id = "c" <;> simp [handlersSet, subsOf, hid]
  exact (c10_idempotent_and_conditional_restore.2.2
    { clients := fun id => if id = "c" then some ⟨∅, 0, []⟩ else none,
      handlers := fun _ => none } "c" "x" hInv (by decide)).1

/-! ## Metrics lemmas -/

theorem applyHOps_key (ops : List HOp) (hist : HistMap) (k : String) :
    (applyHOps hist ops) k
      = ((ops.filter (fun q => decide (keyOf q = k))).map entryOf).foldl
          storeSeries (hist k) := by
  induction ops generalizing hist with
  | nil => rfl
  | cons q rest ih =>
    have hstep : applyHOps hist (q :: rest)
        = applyHOps (update hist (keyOf q) (storeSeries (hist (keyOf q)) (entryOf q)))
            rest := rfl
    rw [hstep, ih]
    by_cases hk : keyOf q = k
    · subst hk
      rw [update_same]
      simp [List.filter_cons]
    · have hne : k ≠ keyOf q := fun h => hk h.symm
      rw [update_other hist (keyOf q) _ k hne]
      simp [List.filter_cons, hk]

theorem foldl_storeSeries_suffix (es : List HEntry) :
    es.foldl storeSeries [] = es.drop (es.length - historyMaxSize) := by
  induction es using List.reverseRecOn with
  | nil => rfl
  | append_singleton es e ih =>
    rw [List.foldl_append, List.foldl_cons, List.foldl_nil, ih]
    show storeSeries (es.drop (es.length - historyMaxSize)) e
        = (es ++ [e]).drop ((es ++ [e]).length - historyMaxSize)
    have hM : 0 < historyMaxSize := by norm_num [historyMaxSize]
    have hL : (es ++ [e]).length = es.length + 1 := by simp
    unfold storeSeries
    by_cases hlt : es.length < historyMaxSize
    · have h0 : es.length - historyMaxSize = 0 := by omega
      rw [h0, List.drop_zero]
      rw [if_neg (by rw [hL]; omega)]
      have h1 : (es ++ [e]).length - historyMaxSize = 0 := by rw [hL]; omega
      rw [h1, List.drop_zero]
    · have hdroplen : (es.drop (es.length - historyMaxSize)).length = historyMaxSize := by
        rw [List.length_drop]; omega
      have hlen2 : (es.drop (es.length - historyMaxSize) ++ [e]).length
          = historyMaxSize + 1 := by
        simp [hdroplen]
      rw [if_pos (by rw [hlen2]; omega)]
      rw [hlen2]
      have h1 : historyMaxSize + 1 - historyMaxSize = 1 := by omega
      rw [h1]
      rw [List.drop_append_eq_append_drop, hdroplen]
      have h2 : 1 - historyMaxSize = 0 := by omega
      rw [h2, List.drop_zero, List.drop_drop]
      rw [List.drop_append_eq_append_drop, hL]
      have h3 : es.length + 1 - historyMaxSize - es.length = 0 := by omega
      rw [h3, List.drop_zero]
      have h4 : es.length - historyMaxSize + 1 = es.length + 1 - historyMaxSize := by
        omega
      rw [h4]

/-- C8 (confirmed): after any sequence of `_store_in_history` calls
starting from the empty history map, every key's series is exactly the
most recent `historyMax = 1000` entries appended for that key, in append
order (oldest evicted first), and its length never exceeds 1000. -/
theorem c8_history_capped_fifo (ops : List HOp) (k : String) :
    (applyHOps emptyHist ops) k
      = (((ops.filter (fun q => decide (keyOf q = k))).map entryOf).drop
          (((ops.filter (fun q => decide (keyOf q = k))).map entryOf).length
            - historyMaxSize))
    ∧ ((applyHOps emptyHist ops) k).length ≤ historyMaxSize := by
  have h := applyHOps_key ops emptyHist k
  have h2 : emptyHist k = [] := rfl
  rw [h2] at h
  rw [h, foldl_storeSeries_suffix]
  refine ⟨rfl, ?_⟩
  rw [List.length_drop]
  have hM : 0 < historyMaxSize := by norm_num [historyMaxSize]
  omega

/-- C2 (code bug): a truthy cache entry whose real age is one day plus
thirty seconds — far beyond its 60-second TTL — is still served as a
cache hit, with the producer NOT invoked, because `_get_from_cache`
compares `(utcnow - timestamp).seconds`, the sub-day seconds component
`86430 mod 86400 = 30`, against the TTL instead of the total elapsed
seconds. -/
theorem c2_stale_entry_served_after_a_day :
    (86430000000 : Nat) / 1000000 > 60
    ∧ (get_system_metrics 60
        (update emptyCache (get_cache_key "system" "hostA")
          (some { data := [("cpu", "10")], timestamp := 0, ttl := 60 }))
        emptyHist "hostA" 86430000000 [("cpu", "99")]).invoked = false
    ∧ (get_system_metrics 60
        (update emptyCache (get_cache_key "system" "hostA")
          (some { data := [("cpu", "10")], timestamp := 0, ttl := 60 }))
        emptyHist "hostA" 86430000000 [("cpu", "99")]).value = [("cpu", "10")] := by
  exact ⟨by decide, rfl, rfl⟩

/-- C9 (amended): `get_metrics_history` filters the stored series to
exactly the entries whose timestamp lies within the provided bounds,
inclusively, with omitted bounds unconstrained; but the result is a fresh
snapshot list only when at least one bound is provided — with no bounds
it returns the stored list itself (the second component records that
aliasing). -/
theorem c9_history_filter_inclusive_alias (hist : HistMap)
    (metricType serverName : String) (startT endT : Option Nat) :
    (get_metrics_history hist metricType serverName startT endT).1
      = (hist (metricType ++ ":" ++ serverName)).filter
          (fun e => (startT.elim true (fun st => decide (st ≤ e.timestamp)))
              && (endT.elim true (fun et => decide (e.timestamp ≤ et))))
    ∧ (get_metrics_history hist metricType serverName startT endT).2
      = (startT.isNone && endT.isNone) := by
  cases startT <;> cases endT <;>
    simp [get_metrics_history, inRange, Nat.not_lt]

/-- C9 counterexample: with no bounds the returned sequence is NOT a
snapshot — `get_metrics_history` returns the stored list object itself,
and a subsequent `_store_in_history` append (below the cap, hence an
in-place `list.append` on that same object) becomes visible through the
previously returned result, which therefore no longer equals its value at
call time. -/
theorem c9_no_bounds_returns_live_list :
    (get_metrics_history (update emptyHist "system:h" [⟨1, []⟩]) "system" "h"
        none none).2 = true
    ∧ (store_in_history (update emptyHist "system:h" [⟨1, []⟩]) "system" "h" [] 2)
        ("system" ++ ":" ++ "h")
      = (get_metrics_history (update emptyHist "system:h" [⟨1, []⟩]) "system" "h"
          none none).1 ++ [⟨2, []⟩]
    ∧ observedAfterAppend
        (get_metrics_history (update emptyHist "system:h" [⟨1, []⟩]) "system" "h"
          none none) [⟨2, []⟩]
      ≠ (get_metrics_history (update emptyHist "system:h" [⟨1, []⟩]) "system" "h"
          none none).1 := by
  exact ⟨rfl, by decide, by decide⟩

end Dash
